import Mathlib

/-!
Verification development for a car-rental booking application.

The data model follows `models.py` (tables `Booking` and `Review`); the
operations follow the route handlers in `app.py`: booking submission
(`book`), the confirmation-page pricing computation (`confirmation`),
payment-method selection (`confirmation_payment`, `process_payment`),
owner edits (`edit_booking`), review submission (`review`) and the admin
status update (`admin_update_booking_status`).  Dates are modelled as
integers (day numbers); prices as rationals.
-/

namespace CarRental

/-- A row of the `Booking` table (`models.py`): the fields the booking
lifecycle reads or writes.  `status` defaults to "Pending",
`payment_status` to "Unpaid", `payment_method` to NULL. -/
structure Booking where
  id : Nat
  user_id : Nat
  car_id : Nat
  pickup_date : Int
  return_date : Int
  status : String
  payment_method : Option String
  payment_status : String
deriving DecidableEq, Repr

/-- A row of the `Review` table (`models.py`). -/
structure Review where
  user_id : Nat
  car_id : Nat
  booking_id : Nat
  rating : Nat
deriving DecidableEq, Repr

/-- The persistent store: the bookings and reviews tables. -/
structure State where
  bookings : List Booking
  reviews : List Review
deriving DecidableEq, Repr

/-- `is_valid_status` from `app.py`. -/
def is_valid_status (st : String) : Bool :=
  ["Pending", "Approved", "Rejected", "Completed", "Returned"].contains st

/-- The blocking statuses used by every conflict query in `app.py`
(`Booking.status.in_(['Approved', 'Returned', 'Completed'])`). -/
def isBlocking (st : String) : Bool :=
  ["Approved", "Returned", "Completed"].contains st

/-- `booking.payment_method is not None and booking.payment_method != ''`
from `admin_update_booking_status`. -/
def hasPaymentMethod (b : Booking) : Bool :=
  match b.payment_method with
  | none => false
  | some m => m != ""

/-- The `Booking.id != excluded` part of the conflict query; vacuous when
no booking is excluded. -/
def excludeTest (excludeId : Option Nat) (b : Booking) : Bool :=
  match excludeId with
  | none => true
  | some i => b.id != i

@[simp] theorem excludeTest_none (b : Booking) : excludeTest none b = true := rfl

@[simp] theorem excludeTest_some (i : Nat) (b : Booking) :
    excludeTest (some i) b = (b.id != i) := rfl

/-- The conflict query shared by `book`, `confirmation` and
`admin_update_booking_status`: bookings of the given car, optionally
excluding one id, in a blocking status, whose interval passes the overlap
test `return_date >= candidateStart AND pickup_date <= candidateEnd`. -/
def conflicting_bookings (bs : List Booking) (carId : Nat) (excludeId : Option Nat)
    (candidateStart candidateEnd : Int) : List Booking :=
  bs.filter (fun b =>
    b.car_id == carId &&
    excludeTest excludeId b &&
    isBlocking b.status &&
    decide (candidateStart ≤ b.return_date) &&
    decide (b.pickup_date ≤ candidateEnd))

/-- The availability check (`hasConflict` of the specification): the
conflict query returns at least one row. -/
def hasConflict (bs : List Booking) (carId : Nat) (candidateStart candidateEnd : Int)
    (excludeId : Option Nat) : Bool :=
  !(conflicting_bookings bs carId excludeId candidateStart candidateEnd).isEmpty

/-- Inclusive day count from `confirmation`:
`(return_date - pickup_date).days + 1`, floored at 1. -/
def inclusiveDays (s e : Int) : Int :=
  if e - s + 1 < 1 then 1 else e - s + 1

/-- Rounding of a rational to the nearest integer, ties to even
(the behaviour of Python's `round` on exact values). -/
def roundHalfEven (q : ℚ) : Int :=
  let f := ⌊q⌋
  let r := q - (f : ℚ)
  if r < 1/2 then f
  else if 1/2 < r then f + 1
  else if f % 2 = 0 then f else f + 1

/-- `round(x, 2)` on exact values. -/
def round2 (q : ℚ) : ℚ := ((roundHalfEven (q * 100) : ℚ)) / 100

/-- `Booking.query.get(booking_id)`: lookup by primary key. -/
def findBooking (s : State) (bid : Nat) : Option Booking :=
  s.bookings.find? (fun b => b.id == bid)

/-- Update the row with the given primary key. -/
def updateBooking (s : State) (bid : Nat) (f : Booking → Booking) : State :=
  { s with bookings := s.bookings.map (fun b => if b.id == bid then f b else b) }

/-- Autoincrement primary key for a freshly inserted booking. -/
def nextId (bs : List Booking) : Nat :=
  (bs.map (fun b => b.id)).foldr max 0 + 1

inductive BookResult
  | conflict
  | created
deriving DecidableEq, Repr

/-- The `book` route (`app.py` lines 265-323): reject when the conflict
query for the chosen car and dates returns a row, otherwise insert a new
booking with status "Pending". -/
def book (s : State) (uid cid : Nat) (pickup ret : Int) : BookResult × State :=
  if hasConflict s.bookings cid pickup ret none then (.conflict, s)
  else (.created, { s with bookings := s.bookings ++
    [{ id := nextId s.bookings, user_id := uid, car_id := cid, pickup_date := pickup,
       return_date := ret, status := "Pending", payment_method := none,
       payment_status := "Unpaid" }] })

inductive AdminResult where
  | notFound
  | conflict (details : List (Nat × Int × Int))
  | paymentSelected
  | illegal (msg : String)
  | invalidStatus
  | ok
deriving DecidableEq, Repr

/-- Validation 2 of `admin_update_booking_status`: the per-status
transition rules, returning the error message when the requested
transition is refused. -/
def trans_error (cur ns : String) : Option String :=
  if cur == "Pending" then
    if !(["Pending", "Approved", "Rejected"].contains ns) then
      some "From Pending, you can only approve or reject." else none
  else if cur == "Approved" then
    if !(["Approved", "Returned"].contains ns) then
      some "From Approved, you can only mark as Returned." else none
  else if cur == "Rejected" then some "Cannot change status from Rejected (final status)."
  else if cur == "Returned" then
    if ["Pending", "Approved", "Rejected"].contains ns then
      some "Cannot go back from Returned status." else none
  else if cur == "Completed" then some "Cannot change status from Completed (final status)."
  else none

/-- The admin status-update route (`app.py` lines 634-702): overlap check
when approving a pending booking (reporting the conflicting ids and
ranges), the payment-method guard on moving to Pending, the per-status
transition rules, and the final validity check before committing. -/
def admin_update_booking_status (s : State) (bid : Nat) (ns : String) : AdminResult × State :=
  match findBooking s bid with
  | none => (.notFound, s)
  | some booking =>
    if ns == "Approved" && booking.status == "Pending" &&
        !(conflicting_bookings s.bookings booking.car_id (some booking.id)
            booking.pickup_date booking.return_date).isEmpty then
      (.conflict ((conflicting_bookings s.bookings booking.car_id (some booking.id)
          booking.pickup_date booking.return_date).map
            (fun cb => (cb.id, cb.pickup_date, cb.return_date))), s)
    else if ns == "Pending" && hasPaymentMethod booking then
      (.paymentSelected, s)
    else
      match trans_error booking.status ns with
      | some msg => (.illegal msg, s)
      | none =>
        if is_valid_status ns then
          (.ok, updateBooking s bid (fun b => { b with status := ns }))
        else (.invalidStatus, s)

inductive EditResult
  | notFound
  | denied
  | notEditable
  | updated
deriving DecidableEq, Repr

/-- The `edit_booking` route (`app.py` lines 480-513): only the owner may
edit, only while Pending or Approved; the new dates are stored with no
conflict check. -/
def edit_booking (s : State) (bid uid : Nat) (pickup ret : Int) : EditResult × State :=
  match findBooking s bid with
  | none => (.notFound, s)
  | some booking =>
    if booking.user_id != uid then (.denied, s)
    else if !(["Pending", "Approved"].contains booking.status) then (.notEditable, s)
    else (.updated, updateBooking s bid
      (fun b => { b with pickup_date := pickup, return_date := ret }))

inductive ReviewResult
  | notFound
  | denied
  | notReturned
  | alreadyReviewed
  | invalidForm
  | created
deriving DecidableEq, Repr

/-- The `review` route (`app.py` lines 544-585): owner only, booking must
be Returned, at most one review per booking; on success the review row is
inserted and the booking becomes Completed in the same commit.  The form
accepts ratings 1-5. -/
def review (s : State) (bid uid rating : Nat) : ReviewResult × State :=
  match findBooking s bid with
  | none => (.notFound, s)
  | some booking =>
    if booking.user_id != uid then (.denied, s)
    else if booking.status != "Returned" then (.notReturned, s)
    else if !(s.reviews.filter (fun r => r.booking_id == bid)).isEmpty then
      (.alreadyReviewed, s)
    else if 1 ≤ rating ∧ rating ≤ 5 then
      (.created,
        { bookings := (updateBooking s bid (fun b => { b with status := "Completed" })).bookings,
          reviews := s.reviews ++
            [{ user_id := uid, car_id := booking.car_id, booking_id := bid, rating := rating }] })
    else (.invalidForm, s)

inductive PayResult
  | notFound
  | denied
  | notApproved
  | noMethod
  | ok
deriving DecidableEq, Repr

/-- The `confirmation_payment` route (`app.py` lines 378-405): owner only,
booking must be Approved; any truthy submitted string is stored as the
payment method, and "Cash" sets payment_status to "Unpaid". -/
def confirmation_payment (s : State) (bid uid : Nat) (method : Option String) :
    PayResult × State :=
  match findBooking s bid with
  | none => (.notFound, s)
  | some booking =>
    if booking.user_id != uid then (.denied, s)
    else if booking.status != "Approved" then (.notApproved, s)
    else
      match method with
      | none => (.noMethod, s)
      | some m =>
        if m == "" then (.noMethod, s)
        else (.ok, updateBooking s bid (fun b =>
          { b with payment_method := some m,
                   payment_status := if m == "Cash" then "Unpaid" else b.payment_status }))

/-- The `process_payment` route (`app.py` lines 407-447): owner only,
booking must be Approved; the simulated gateway stores the submitted
method and marks the booking "Paid". -/
def process_payment (s : State) (bid uid : Nat) (method : Option String) :
    PayResult × State :=
  match findBooking s bid with
  | none => (.notFound, s)
  | some booking =>
    if booking.user_id != uid then (.denied, s)
    else if booking.status != "Approved" then (.notApproved, s)
    else (.ok, updateBooking s bid
      (fun b => { b with payment_method := method, payment_status := "Paid" }))

/-- The set of days the confirmation page deducts: for each booking of the
overlap query, the days from `max` of the pickups to `min` of the returns,
all unioned into one set (`app.py` lines 358-366). -/
def overlap_day_union (b : Booking) (others : List Booking) : Finset Int :=
  others.foldl (fun acc o =>
    acc ∪ Finset.Icc (max b.pickup_date o.pickup_date) (min b.return_date o.return_date)) ∅

/-- Billable days of the confirmation page (`app.py` lines 341-371):
inclusive total minus the card of the union of overlap days, floored
at 1. -/
def confirmation_days (bs : List Booking) (b : Booking) : Int :=
  let total_days := inclusiveDays b.pickup_date b.return_date
  let overlapping := conflicting_bookings bs b.car_id (some b.id) b.pickup_date b.return_date
  let days := total_days - ((overlap_day_union b overlapping).card : Int)
  if days < 1 then 1 else days

/-- The confirmation-page total: `round(price_per_day * days, 2)`. -/
def confirmation_total (bs : List Booking) (b : Booking) (price_per_day : ℚ) : ℚ :=
  round2 (price_per_day * (confirmation_days bs b : ℚ))

/-- The character strip of `parse_price`: `re.sub(r"[^0-9.]", "", s)`. -/
def strip_price_chars (s : String) : String :=
  ⟨s.data.filter (fun c => c.isDigit || c == '.')⟩

/-- Numeric value of a digit list, most significant first. -/
def digitsVal (l : List Char) : Nat :=
  l.foldl (fun acc c => 10 * acc + (c.toNat - 48)) 0

/-- Python `float()` on a string made only of digits and dots: at most one
dot and at least one digit.  Returns the integer part, the fractional
digits and their count, or `none` when the string is unparseable. -/
def floatOfStripped (l : List Char) : Option (Nat × Nat × Nat) :=
  if l.all (fun c => c != '.') then
    if l.isEmpty then none else some (digitsVal l, 0, 0)
  else
    let ip := l.takeWhile (fun c => c != '.')
    let fp := (l.dropWhile (fun c => c != '.')).tail
    if fp.all (fun c => c != '.') then
      if ip.isEmpty && fp.isEmpty then none
      else some (digitsVal ip, digitsVal fp, fp.length)
    else none

/-- The rational denoted by an integer part plus fractional digits. -/
def ratOfParts (p : Nat × Nat × Nat) : ℚ :=
  (p.1 : ℚ) + (p.2.1 : ℚ) / (10 : ℚ) ^ p.2.2

/-- `parse_price` from `app.py`: empty input yields 0, otherwise strip
every character that is not a digit or dot and convert, 0 on failure. -/
def parse_price (s : String) : ℚ :=
  if s = "" then 0
  else
    match floatOfStripped (strip_price_chars s).data with
    | some p => ratOfParts p
    | none => 0

/-- The empty store the application starts from. -/
def initialState : State := { bookings := [], reviews := [] }

/-- States reachable through the state-mutating routes. -/
inductive Reachable : State → Prop where
  | init : Reachable initialState
  | bookStep {s} (uid cid : Nat) (p r : Int) :
      Reachable s → Reachable (book s uid cid p r).2
  | adminStep {s} (bid : Nat) (ns : String) :
      Reachable s → Reachable (admin_update_booking_status s bid ns).2
  | editStep {s} (bid uid : Nat) (p r : Int) :
      Reachable s → Reachable (edit_booking s bid uid p r).2
  | reviewStep {s} (bid uid rating : Nat) :
      Reachable s → Reachable (review s bid uid rating).2
  | payStep {s} (bid uid : Nat) (m : Option String) :
      Reachable s → Reachable (confirmation_payment s bid uid m).2
  | processStep {s} (bid uid : Nat) (m : Option String) :
      Reachable s → Reachable (process_payment s bid uid m).2

/-- An edit request is safe when it does not target an Approved booking of
the requesting owner (the one case `edit_booking` mutates without any
conflict check on a blocking booking). -/
def editSafe (s : State) (bid uid : Nat) : Bool :=
  match findBooking s bid with
  | none => true
  | some b => !(b.user_id == uid) || !(b.status == "Approved")

/-- States reachable when owner edits never target an Approved booking. -/
inductive ReachableSafe : State → Prop where
  | init : ReachableSafe initialState
  | bookStep {s} (uid cid : Nat) (p r : Int) :
      ReachableSafe s → ReachableSafe (book s uid cid p r).2
  | adminStep {s} (bid : Nat) (ns : String) :
      ReachableSafe s → ReachableSafe (admin_update_booking_status s bid ns).2
  | editStep {s} (bid uid : Nat) (p r : Int) :
      ReachableSafe s → editSafe s bid uid = true →
      ReachableSafe (edit_booking s bid uid p r).2
  | reviewStep {s} (bid uid rating : Nat) :
      ReachableSafe s → ReachableSafe (review s bid uid rating).2
  | payStep {s} (bid uid : Nat) (m : Option String) :
      ReachableSafe s → ReachableSafe (confirmation_payment s bid uid m).2
  | processStep {s} (bid uid : Nat) (m : Option String) :
      ReachableSafe s → ReachableSafe (process_payment s bid uid m).2

/-- Two inclusive day ranges share no calendar day. -/
def rangesDisjoint (p1 r1 p2 r2 : Int) : Prop :=
  Finset.Icc p1 r1 ∩ Finset.Icc p2 r2 = ∅

/-- The availability invariant: any two distinct same-car bookings that
are both in a blocking status have disjoint inclusive date ranges. -/
def NoOverlap (s : State) : Prop :=
  ∀ b1 ∈ s.bookings, ∀ b2 ∈ s.bookings,
    b1.id ≠ b2.id → b1.car_id = b2.car_id →
    isBlocking b1.status = true → isBlocking b2.status = true →
    rangesDisjoint b1.pickup_date b1.return_date b2.pickup_date b2.return_date

/-- Primary keys are pairwise distinct. -/
def IdsNodup (s : State) : Prop := (s.bookings.map (fun b => b.id)).Nodup

/-- Every stored status is one of the five valid statuses. -/
def StatusesValid (s : State) : Prop := ∀ b ∈ s.bookings, is_valid_status b.status = true

/-- The combined store invariant. -/
def Inv (s : State) : Prop := IdsNodup s ∧ StatusesValid s ∧ NoOverlap s

/-- Every booking's payment_status is "Unpaid" or "Paid". -/
def PayStatusValid (s : State) : Prop :=
  ∀ b ∈ s.bookings, b.payment_status = "Unpaid" ∨ b.payment_status = "Paid"

/-- At most one review per booking. -/
def ReviewsUnique (s : State) : Prop :=
  ∀ i, (s.reviews.filter (fun r => r.booking_id == i)).length ≤ 1

/-- Modelled from the amended claim for the admin state machine: the
transitions the admin route accepts (before the payment-method and
overlap guards): from Pending to Pending, Approved or Rejected; from
Approved to Approved or Returned; from Returned to Returned or
Completed; nothing out of Rejected or Completed. -/
def adminAllowedTransition (cur ns : String) : Bool :=
  (cur == "Pending" && (ns == "Pending" || ns == "Approved" || ns == "Rejected")) ||
  (cur == "Approved" && (ns == "Approved" || ns == "Returned")) ||
  (cur == "Returned" && (ns == "Returned" || ns == "Completed"))

/-- Modelled from the spec (pricing algorithm): the union, over every
other booking in a blocking status for the same car, of the set of
calendar days common to both inclusive ranges. -/
def specOverlapUnion (bs : List Booking) (b : Booking) : Finset Int :=
  (bs.filter (fun o => o.id != b.id && o.car_id == b.car_id && isBlocking o.status)).foldl
    (fun acc o => acc ∪
      (Finset.Icc b.pickup_date b.return_date ∩ Finset.Icc o.pickup_date o.return_date)) ∅

/-- Modelled from the spec (pricing algorithm): billable days are the
inclusive total minus the common-day union's size, floored at 1. -/
def specBillableDays (bs : List Booking) (b : Booking) : Int :=
  max 1 (inclusiveDays b.pickup_date b.return_date - ((specOverlapUnion bs b).card : Int))

instance (s : State) : Decidable (NoOverlap s) := by
  unfold NoOverlap rangesDisjoint; infer_instance

instance (s : State) : Decidable (StatusesValid s) := by
  unfold StatusesValid; infer_instance

instance (s : State) : Decidable (IdsNodup s) := by
  unfold IdsNodup; infer_instance

instance (s : State) : Decidable (Inv s) := by
  unfold Inv; infer_instance

instance (s : State) : Decidable (PayStatusValid s) := by
  unfold PayStatusValid; infer_instance

theorem Icc_inter_eq (p1 r1 p2 r2 : Int) :
    Finset.Icc p1 r1 ∩ Finset.Icc p2 r2 = Finset.Icc (max p1 p2) (min r1 r2) := by
  ext d
  simp only [Finset.mem_inter, Finset.mem_Icc]
  omega

theorem rangesDisjoint_of_test_false {cs ce p2 r2 : Int}
    (h : ¬(cs ≤ r2 ∧ p2 ≤ ce)) : rangesDisjoint cs ce p2 r2 := by
  unfold rangesDisjoint
  rw [Finset.eq_empty_iff_forall_not_mem]
  intro d hd
  simp only [Finset.mem_inter, Finset.mem_Icc] at hd
  omega

theorem rangesDisjoint_symm {p1 r1 p2 r2 : Int}
    (h : rangesDisjoint p1 r1 p2 r2) : rangesDisjoint p2 r2 p1 r1 := by
  unfold rangesDisjoint at h ⊢
  rwa [Finset.inter_comm]

theorem le_foldr_max {l : List Nat} {a : Nat} (h : a ∈ l) : a ≤ l.foldr max 0 := by
  induction l with
  | nil => cases h
  | cons x xs ih =>
    rcases List.mem_cons.mp h with rfl | h'
    · exact le_max_left _ _
    · exact le_trans (ih h') (le_max_right _ _)

theorem id_lt_nextId {bs : List Booking} {b : Booking} (h : b ∈ bs) : b.id < nextId bs := by
  have : b.id ≤ (bs.map (fun x => x.id)).foldr max 0 :=
    le_foldr_max (List.mem_map_of_mem _ h)
  unfold nextId
  omega

theorem findBooking_mem {s : State} {bid : Nat} {b : Booking}
    (h : findBooking s bid = some b) : b ∈ s.bookings ∧ b.id = bid := by
  refine ⟨List.mem_of_find?_eq_some h, ?_⟩
  have := List.find?_some h
  simpa using this

theorem findBooking_unique {s : State} {bid : Nat} {b : Booking}
    (hn : IdsNodup s) (h : findBooking s bid = some b)
    {b' : Booking} (hb' : b' ∈ s.bookings) (hid : b'.id = bid) : b' = b := by
  obtain ⟨hmem, hbid⟩ := findBooking_mem h
  exact List.inj_on_of_nodup_map hn hb' hmem (by rw [hid, hbid])

theorem mem_updateBooking {s : State} {bid : Nat} {f : Booking → Booking} {b' : Booking} :
    b' ∈ (updateBooking s bid f).bookings ↔
      ∃ b ∈ s.bookings, b' = if b.id == bid then f b else b := by
  unfold updateBooking
  simp only [List.mem_map]
  constructor
  · rintro ⟨b, hb, rfl⟩; exact ⟨b, hb, rfl⟩
  · rintro ⟨b, hb, rfl⟩; exact ⟨b, hb, rfl⟩

theorem updateBooking_map_eq {s : State} {bid : Nat} {f : Booking → Booking}
    {g : Booking → α} (hg : ∀ b, g (f b) = g b) :
    (updateBooking s bid f).bookings.map g = s.bookings.map g := by
  unfold updateBooking
  rw [List.map_map]
  refine List.map_congr_left ?_
  intro b _
  simp only [Function.comp_apply]
  split
  · exact hg b
  · rfl

theorem updateBooking_ids {s : State} {bid : Nat} {f : Booking → Booking}
    (hf : ∀ b, (f b).id = b.id) :
    (updateBooking s bid f).bookings.map (fun b => b.id) = s.bookings.map (fun b => b.id) :=
  updateBooking_map_eq hf

theorem findBooking_updateBooking {s : State} {bid : Nat} {f : Booking → Booking}
    (hf : ∀ b, (f b).id = b.id) (i : Nat) :
    findBooking (updateBooking s bid f) i =
      (findBooking s i).map (fun b => if b.id == bid then f b else b) := by
  unfold findBooking updateBooking
  rw [List.find?_map]
  have : ((fun b => b.id == i) ∘ (fun b => if b.id == bid then f b else b)) =
      (fun b : Booking => b.id == i) := by
    funext b
    simp only [Function.comp_apply]
    split
    · rw [hf]
    · rfl
  rw [this]

theorem updateBooking_reviews {s : State} {bid : Nat} {f : Booking → Booking} :
    (updateBooking s bid f).reviews = s.reviews := rfl

theorem is_valid_status_cases {st : String} (h : is_valid_status st = true) :
    st = "Pending" ∨ st = "Approved" ∨ st = "Rejected" ∨ st = "Completed" ∨ st = "Returned" := by
  simpa [is_valid_status] using h

theorem isBlocking_cases {st : String} (h : isBlocking st = true) :
    st = "Approved" ∨ st = "Returned" ∨ st = "Completed" := by
  simpa [isBlocking] using h

theorem trans_error_blocking {cur ns : String} (hcur : is_valid_status cur = true)
    (hns : isBlocking ns = true) (he : trans_error cur ns = none) :
    isBlocking cur = true ∨ (cur = "Pending" ∧ ns = "Approved") := by
  rcases is_valid_status_cases hcur with rfl | rfl | rfl | rfl | rfl <;>
    rcases isBlocking_cases hns with rfl | rfl | rfl <;>
      first
        | decide
        | exact absurd he (by decide)

theorem book_inv {s : State} (h : Inv s) (uid cid : Nat) (p r : Int) :
    Inv (book s uid cid p r).2 := by
  obtain ⟨hnd, hsv, hno⟩ := h
  unfold book
  split
  · exact ⟨hnd, hsv, hno⟩
  · refine ⟨?_, ?_, ?_⟩
    · unfold IdsNodup
      simp only [List.map_append, List.map_cons, List.map_nil]
      rw [List.nodup_append]
      refine ⟨hnd, List.nodup_singleton _, ?_⟩
      intro x hx hx'
      simp only [List.mem_singleton] at hx'
      subst hx'
      obtain ⟨b, hb, hbid⟩ := List.mem_map.mp hx
      have := id_lt_nextId hb
      omega
    · intro b hb
      rcases List.mem_append.mp hb with hb | hb
      · exact hsv b hb
      · simp only [List.mem_singleton] at hb
        subst hb
        rfl
    · intro b1 hb1 b2 hb2 hne hcar hbl1 hbl2
      rcases List.mem_append.mp hb1 with hb1 | hb1
      · rcases List.mem_append.mp hb2 with hb2 | hb2
        · exact hno b1 hb1 b2 hb2 hne hcar hbl1 hbl2
        · simp only [List.mem_singleton] at hb2
          subst hb2
          exact Bool.noConfusion hbl2
      · simp only [List.mem_singleton] at hb1
        subst hb1
        exact Bool.noConfusion hbl1

theorem inv_updateBooking_same_ranges {s : State} {bid : Nat} {f : Booking → Booking}
    (h : Inv s)
    (hid : ∀ b, (f b).id = b.id) (hcar : ∀ b, (f b).car_id = b.car_id)
    (hp : ∀ b, (f b).pickup_date = b.pickup_date) (hr : ∀ b, (f b).return_date = b.return_date)
    (hstv : ∀ b ∈ s.bookings, b.id = bid → is_valid_status (f b).status = true)
    (hbl : ∀ b ∈ s.bookings, b.id = bid → isBlocking (f b).status = true → isBlocking b.status = true) :
    Inv (updateBooking s bid f) := by
  obtain ⟨hnd, hsv, hno⟩ := h
  have hfid : ∀ b : Booking, (if b.id == bid then f b else b).id = b.id := by
    intro b; split; exacts [hid b, rfl]
  have hfcar : ∀ b : Booking, (if b.id == bid then f b else b).car_id = b.car_id := by
    intro b; split; exacts [hcar b, rfl]
  have hfp : ∀ b : Booking, (if b.id == bid then f b else b).pickup_date = b.pickup_date := by
    intro b; split; exacts [hp b, rfl]
  have hfr : ∀ b : Booking, (if b.id == bid then f b else b).return_date = b.return_date := by
    intro b; split; exacts [hr b, rfl]
  refine ⟨?_, ?_, ?_⟩
  · unfold IdsNodup
    rw [updateBooking_ids hid]
    exact hnd
  · intro b' hb'
    obtain ⟨b, hb, rfl⟩ := mem_updateBooking.mp hb'
    split
    · rename_i hx
      exact hstv b hb (by simpa using hx)
    · exact hsv b hb
  · intro b1' hb1' b2' hb2' hne hcar' hbl1 hbl2
    obtain ⟨b1, hb1, rfl⟩ := mem_updateBooking.mp hb1'
    obtain ⟨b2, hb2, rfl⟩ := mem_updateBooking.mp hb2'
    have hbl1' : isBlocking b1.status = true := by
      revert hbl1; split
      · rename_i hx
        exact hbl b1 hb1 (by simpa using hx)
      · exact id
    have hbl2' : isBlocking b2.status = true := by
      revert hbl2; split
      · rename_i hx
        exact hbl b2 hb2 (by simpa using hx)
      · exact id
    rw [hfid b1, hfid b2] at hne
    rw [hfcar b1, hfcar b2] at hcar'
    rw [hfp b1, hfr b1, hfp b2, hfr b2]
    exact hno b1 hb1 b2 hb2 hne hcar' hbl1' hbl2'

theorem inv_updateBooking_nonblocking {s : State} {bid : Nat} {f : Booking → Booking}
    (h : Inv s)
    (hid : ∀ b, (f b).id = b.id) (hst : ∀ b, (f b).status = b.status)
    (hnb : ∀ b ∈ s.bookings, b.id = bid → isBlocking b.status = false) :
    Inv (updateBooking s bid f) := by
  obtain ⟨hnd, hsv, hno⟩ := h
  have hfid : ∀ b : Booking, (if b.id == bid then f b else b).id = b.id := by
    intro b; split; exacts [hid b, rfl]
  have hfst : ∀ b : Booking, (if b.id == bid then f b else b).status = b.status := by
    intro b; split; exacts [hst b, rfl]
  refine ⟨?_, ?_, ?_⟩
  · unfold IdsNodup
    rw [updateBooking_ids hid]
    exact hnd
  · intro b' hb'
    obtain ⟨b, hb, rfl⟩ := mem_updateBooking.mp hb'
    rw [hfst b]
    exact hsv b hb
  · intro b1' hb1' b2' hb2' hne hcar' hbl1 hbl2
    obtain ⟨b1, hb1, rfl⟩ := mem_updateBooking.mp hb1'
    obtain ⟨b2, hb2, rfl⟩ := mem_updateBooking.mp hb2'
    rw [hfst b1] at hbl1
    rw [hfst b2] at hbl2
    have he1 : (if b1.id == bid then f b1 else b1) = b1 := by
      split
      · rename_i hx
        have hfalse := hnb b1 hb1 (by simpa using hx)
        rw [hfalse] at hbl1
        exact absurd hbl1 (by decide)
      · rfl
    have he2 : (if b2.id == bid then f b2 else b2) = b2 := by
      split
      · rename_i hx
        have hfalse := hnb b2 hb2 (by simpa using hx)
        rw [hfalse] at hbl2
        exact absurd hbl2 (by decide)
      · rfl
    rw [he1, he2] at hne hcar' ⊢
    exact hno b1 hb1 b2 hb2 hne hcar' hbl1 hbl2

theorem confirmation_payment_inv {s : State} (h : Inv s) (bid uid : Nat) (m : Option String) :
    Inv (confirmation_payment s bid uid m).2 := by
  rcases hfind : findBooking s bid with _ | booking
  · simp only [confirmation_payment, hfind]
    exact h
  · simp only [confirmation_payment, hfind]
    split
    · exact h
    · split
      · exact h
      · split
        · exact h
        · split
          · exact h
          · exact inv_updateBooking_same_ranges h (fun b => rfl) (fun b => rfl)
              (fun b => rfl) (fun b => rfl)
              (fun b hb _ => h.2.1 b hb) (fun b _ _ hb => hb)

theorem process_payment_inv {s : State} (h : Inv s) (bid uid : Nat) (m : Option String) :
    Inv (process_payment s bid uid m).2 := by
  rcases hfind : findBooking s bid with _ | booking
  · simp only [process_payment, hfind]
    exact h
  · simp only [process_payment, hfind]
    split
    · exact h
    · split
      · exact h
      · exact inv_updateBooking_same_ranges h (fun b => rfl) (fun b => rfl)
          (fun b => rfl) (fun b => rfl)
          (fun b hb _ => h.2.1 b hb) (fun b _ _ hb => hb)

theorem edit_inv {s : State} (h : Inv s) {bid uid : Nat}
    (hsafe : editSafe s bid uid = true) (p r : Int) :
    Inv (edit_booking s bid uid p r).2 := by
  rcases hfind : findBooking s bid with _ | booking
  · simp only [edit_booking, hfind]
    exact h
  · simp only [edit_booking, hfind]
    split
    · exact h
    · split
      · exact h
      · rename_i howner hstatus
        refine inv_updateBooking_nonblocking h (fun b => rfl) (fun b => rfl) ?_
        intro b hb hbideq
        have hbeq : b = booking := findBooking_unique h.1 hfind hb hbideq
        subst hbeq
        unfold editSafe at hsafe
        rw [hfind] at hsafe
        simp only [bne_iff_ne, ne_eq, Decidable.not_not] at howner
        simp only [Bool.not_eq_true', Bool.not_eq_false] at hstatus
        simp only [howner, beq_self_eq_true, Bool.not_true, Bool.false_or,
          Bool.not_eq_true', beq_eq_false_iff_ne, ne_eq] at hsafe
        have hpa : b.status = "Pending" ∨ b.status = "Approved" := by
          simpa using hstatus
        rcases hpa with hp' | hp'
        · rw [hp']; rfl
        · exact absurd hp' hsafe

theorem review_inv {s : State} (h : Inv s) (bid uid rating : Nat) :
    Inv (review s bid uid rating).2 := by
  rcases hfind : findBooking s bid with _ | booking
  · simp only [review, hfind]
    exact h
  · simp only [review, hfind]
    split
    · exact h
    · split
      · exact h
      · split
        · exact h
        · split
          · rename_i hret _ _
            have hupd : Inv (updateBooking s bid
                (fun b => { b with status := "Completed" })) := by
              refine inv_updateBooking_same_ranges h (fun b => rfl) (fun b => rfl)
                (fun b => rfl) (fun b => rfl) (fun b _ _ => rfl) ?_
              intro b hb hbideq _
              have hbeq : b = booking := findBooking_unique h.1 hfind hb hbideq
              subst hbeq
              have hrs : b.status = "Returned" := by
                simpa using hret
              rw [hrs]
              rfl
            exact hupd
          · exact h

theorem admin_inv {s : State} (h : Inv s) (bid : Nat) (ns : String) :
    Inv (admin_update_booking_status s bid ns).2 := by
  rcases hfind : findBooking s bid with _ | booking
  · simp only [admin_update_booking_status, hfind]
    exact h
  · simp only [admin_update_booking_status, hfind]
    split
    · exact h
    · split
      · exact h
      · split
        · exact h
        · split
          · rename_i hguard1 hguard2 hscrut heq hvalid
            clear hscrut
            obtain ⟨hnd, hsv, hno⟩ := h
            obtain ⟨hbm, hbid⟩ := findBooking_mem hfind
            have hkey : ∀ b ∈ s.bookings, (b.id == bid) = true →
                isBlocking ns = true →
                isBlocking b.status = true ∨
                  (b = booking ∧ booking.status = "Pending" ∧ ns = "Approved" ∧
                    conflicting_bookings s.bookings booking.car_id (some booking.id)
                      booking.pickup_date booking.return_date = []) := by
              intro b hb hbide hblns
              have hbeq : b = booking := findBooking_unique hnd hfind hb (by simpa using hbide)
              rcases trans_error_blocking (hsv booking hbm) hblns heq with hblcur | hpa
              · left
                rw [hbeq]
                exact hblcur
              · right
                obtain ⟨hpend, happr⟩ := hpa
                refine ⟨hbeq, hpend, happr, ?_⟩
                rw [happr, hpend] at hguard1
                simp only [beq_self_eq_true, Bool.true_and, Bool.not_eq_true',
                  Bool.not_eq_false, List.isEmpty_iff] at hguard1
                exact hguard1
            have hdisj : ∀ b ∈ s.bookings, b.id ≠ booking.id → b.car_id = booking.car_id →
                isBlocking b.status = true →
                conflicting_bookings s.bookings booking.car_id (some booking.id)
                    booking.pickup_date booking.return_date = [] →
                rangesDisjoint booking.pickup_date booking.return_date
                  b.pickup_date b.return_date := by
              intro b hb hidne hcareq hbl hconf
              unfold conflicting_bookings at hconf
              rw [List.filter_eq_nil_iff] at hconf
              have hpred := hconf b hb
              apply rangesDisjoint_of_test_false
              rintro ⟨hd1, hd2⟩
              apply hpred
              simp only [excludeTest_some, Bool.and_eq_true, beq_iff_eq, bne_iff_ne, ne_eq,
                decide_eq_true_eq]
              exact ⟨⟨⟨⟨hcareq, hidne⟩, hbl⟩, hd1⟩, hd2⟩
            refine ⟨?_, ?_, ?_⟩
            · have hids : (updateBooking s bid
                  (fun b => { b with status := ns })).bookings.map (fun b => b.id) =
                    s.bookings.map (fun b => b.id) := updateBooking_ids (fun b => rfl)
              unfold IdsNodup
              rw [hids]
              exact hnd
            · intro b' hb'
              obtain ⟨b, hb, rfl⟩ := mem_updateBooking.mp hb'
              split
              · exact hvalid
              · exact hsv b hb
            · intro b1' hb1' b2' hb2' hne hcar' hbl1 hbl2
              obtain ⟨b1, hb1, rfl⟩ := mem_updateBooking.mp hb1'
              obtain ⟨b2, hb2, rfl⟩ := mem_updateBooking.mp hb2'
              have hfid : ∀ b : Booking,
                  (if b.id == bid then ({ b with status := ns } : Booking) else b).id = b.id := by
                intro b; split; exacts [rfl, rfl]
              have hfcar : ∀ b : Booking,
                  (if b.id == bid then ({ b with status := ns } : Booking) else b).car_id
                    = b.car_id := by
                intro b; split; exacts [rfl, rfl]
              have hfp : ∀ b : Booking,
                  (if b.id == bid then ({ b with status := ns } : Booking) else b).pickup_date
                    = b.pickup_date := by
                intro b; split; exacts [rfl, rfl]
              have hfr : ∀ b : Booking,
                  (if b.id == bid then ({ b with status := ns } : Booking) else b).return_date
                    = b.return_date := by
                intro b; split; exacts [rfl, rfl]
              rw [hfid b1, hfid b2] at hne
              rw [hfcar b1, hfcar b2] at hcar'
              rw [hfp b1, hfr b1, hfp b2, hfr b2]
              have hc1 : isBlocking b1.status = true ∨
                  (b1 = booking ∧ booking.status = "Pending" ∧ ns = "Approved" ∧
                    conflicting_bookings s.bookings booking.car_id (some booking.id)
                      booking.pickup_date booking.return_date = []) := by
                revert hbl1
                split
                · rename_i hx
                  intro hbl1
                  exact hkey b1 hb1 hx hbl1
                · intro hbl1
                  exact Or.inl hbl1
              have hc2 : isBlocking b2.status = true ∨
                  (b2 = booking ∧ booking.status = "Pending" ∧ ns = "Approved" ∧
                    conflicting_bookings s.bookings booking.car_id (some booking.id)
                      booking.pickup_date booking.return_date = []) := by
                revert hbl2
                split
                · rename_i hx
                  intro hbl2
                  exact hkey b2 hb2 hx hbl2
                · intro hbl2
                  exact Or.inl hbl2
              rcases hc1 with hc1 | ⟨rfl, hpend1, happr1, hconf1⟩
              · rcases hc2 with hc2 | ⟨rfl, hpend2, happr2, hconf2⟩
                · exact hno b1 hb1 b2 hb2 hne hcar' hc1 hc2
                · exact rangesDisjoint_symm (hdisj b1 hb1 hne hcar' hc1 hconf2)
              · rcases hc2 with hc2 | ⟨rfl, hpend2, happr2, hconf2⟩
                · exact hdisj b2 hb2 (Ne.symm hne) hcar'.symm hc2 hconf1
                · exact absurd rfl hne
          · exact h


theorem book_reviews {s : State} (uid cid : Nat) (p r : Int) :
    (book s uid cid p r).2.reviews = s.reviews := by
  unfold book
  split <;> rfl

theorem admin_reviews {s : State} (bid : Nat) (ns : String) :
    (admin_update_booking_status s bid ns).2.reviews = s.reviews := by
  rcases hfind : findBooking s bid with _ | booking <;>
    simp only [admin_update_booking_status, hfind] <;>
      (repeat' split) <;> rfl

theorem edit_reviews {s : State} (bid uid : Nat) (p r : Int) :
    (edit_booking s bid uid p r).2.reviews = s.reviews := by
  rcases hfind : findBooking s bid with _ | booking <;>
    simp only [edit_booking, hfind] <;>
      (repeat' split) <;> rfl

theorem confirmation_payment_reviews {s : State} (bid uid : Nat) (m : Option String) :
    (confirmation_payment s bid uid m).2.reviews = s.reviews := by
  rcases hfind : findBooking s bid with _ | booking <;>
    simp only [confirmation_payment, hfind] <;>
      (repeat' split) <;> rfl

theorem process_payment_reviews {s : State} (bid uid : Nat) (m : Option String) :
    (process_payment s bid uid m).2.reviews = s.reviews := by
  rcases hfind : findBooking s bid with _ | booking <;>
    simp only [process_payment, hfind] <;>
      (repeat' split) <;> rfl

theorem payvalid_updateBooking {s : State} {bid : Nat} {f : Booking → Booking}
    (h : PayStatusValid s)
    (hf : ∀ b ∈ s.bookings, (f b).payment_status = "Unpaid" ∨
      (f b).payment_status = "Paid" ∨ (f b).payment_status = b.payment_status) :
    PayStatusValid (updateBooking s bid f) := by
  intro b' hb'
  obtain ⟨b, hb, rfl⟩ := mem_updateBooking.mp hb'
  split
  · rcases hf b hb with hx | hx | hx
    · exact Or.inl hx
    · exact Or.inr hx
    · rw [hx]
      exact h b hb
  · exact h b hb

theorem book_payvalid {s : State} (h : PayStatusValid s) (uid cid : Nat) (p r : Int) :
    PayStatusValid (book s uid cid p r).2 := by
  unfold book
  split
  · exact h
  · intro b hb
    rcases List.mem_append.mp hb with hb | hb
    · exact h b hb
    · simp only [List.mem_singleton] at hb
      subst hb
      exact Or.inl rfl

theorem admin_payvalid {s : State} (h : PayStatusValid s) (bid : Nat) (ns : String) :
    PayStatusValid (admin_update_booking_status s bid ns).2 := by
  rcases hfind : findBooking s bid with _ | booking
  · simp only [admin_update_booking_status, hfind]
    exact h
  · simp only [admin_update_booking_status, hfind]
    (repeat' split) <;>
      first
        | exact h
        | exact payvalid_updateBooking h (fun b _ => Or.inr (Or.inr rfl))

theorem edit_payvalid {s : State} (h : PayStatusValid s) (bid uid : Nat) (p r : Int) :
    PayStatusValid (edit_booking s bid uid p r).2 := by
  rcases hfind : findBooking s bid with _ | booking
  · simp only [edit_booking, hfind]
    exact h
  · simp only [edit_booking, hfind]
    (repeat' split) <;>
      first
        | exact h
        | exact payvalid_updateBooking h (fun b _ => Or.inr (Or.inr rfl))

theorem review_payvalid {s : State} (h : PayStatusValid s) (bid uid rating : Nat) :
    PayStatusValid (review s bid uid rating).2 := by
  rcases hfind : findBooking s bid with _ | booking
  · simp only [review, hfind]
    exact h
  · simp only [review, hfind]
    (repeat' split) <;>
      first
        | exact h
        | exact payvalid_updateBooking h (fun b _ => Or.inr (Or.inr rfl))

theorem confirmation_payment_payvalid {s : State} (h : PayStatusValid s)
    (bid uid : Nat) (m : Option String) :
    PayStatusValid (confirmation_payment s bid uid m).2 := by
  rcases hfind : findBooking s bid with _ | booking
  · simp only [confirmation_payment, hfind]
    exact h
  · simp only [confirmation_payment, hfind]
    (repeat' split) <;>
      first
        | exact h
        | exact payvalid_updateBooking h (fun b _ => Or.inl rfl)
        | exact payvalid_updateBooking h (fun b _ => Or.inr (Or.inr rfl))

theorem process_payment_payvalid {s : State} (h : PayStatusValid s)
    (bid uid : Nat) (m : Option String) :
    PayStatusValid (process_payment s bid uid m).2 := by
  rcases hfind : findBooking s bid with _ | booking
  · simp only [process_payment, hfind]
    exact h
  · simp only [process_payment, hfind]
    (repeat' split) <;>
      first
        | exact h
        | exact payvalid_updateBooking h (fun b _ => Or.inr (Or.inl rfl))


theorem filter_booking_append_le {rs : List Review} {nr : Review} (i : Nat)
    (hempty : List.filter (fun r => r.booking_id == nr.booking_id) rs = [])
    (hle : ∀ j, (List.filter (fun r => r.booking_id == j) rs).length ≤ 1) :
    (List.filter (fun r => r.booking_id == i) (rs ++ [nr])).length ≤ 1 := by
  rw [List.filter_append]
  by_cases hi : nr.booking_id = i
  · rw [← hi, hempty, List.nil_append]
    apply le_trans (List.length_filter_le _ _)
    simp
  · have hz : List.filter (fun r : Review => r.booking_id == i) [nr] = [] := by
      simp only [List.filter_cons, List.filter_nil]
      split
      · rename_i hx
        exact absurd (by simpa using hx) hi
      · rfl
    rw [hz, List.append_nil]
    exact hle i

theorem review_reviewsUnique {s : State} (h : ReviewsUnique s) (bid uid rating : Nat) :
    ReviewsUnique (review s bid uid rating).2 := by
  rcases hfind : findBooking s bid with _ | booking
  · simp only [review, hfind]
    exact h
  · simp only [review, hfind]
    split
    · exact h
    · split
      · exact h
      · split
        · exact h
        · split
          · rename_i hempty hrate
            have hfilter : List.filter (fun r => r.booking_id == bid) s.reviews = [] := by
              simp only [Bool.not_eq_true', Bool.not_eq_false, List.isEmpty_iff] at hempty
              exact hempty
            intro i
            exact filter_booking_append_le i hfilter h
          · exact h

theorem update_reviewsUnique {s s' : State} (h : ReviewsUnique s)
    (he : s'.reviews = s.reviews) : ReviewsUnique s' := by
  intro i
  rw [he]
  exact h i

theorem reachableSafe_inv {s : State} (h : ReachableSafe s) : Inv s := by
  induction h with
  | init => decide
  | bookStep uid cid p r _ ih => exact book_inv ih uid cid p r
  | adminStep bid ns _ ih => exact admin_inv ih bid ns
  | editStep bid uid p r _ hsafe ih => exact edit_inv ih hsafe p r
  | reviewStep bid uid rating _ ih => exact review_inv ih bid uid rating
  | payStep bid uid m _ ih => exact confirmation_payment_inv ih bid uid m
  | processStep bid uid m _ ih => exact process_payment_inv ih bid uid m

theorem reachable_payvalid {s : State} (h : Reachable s) : PayStatusValid s := by
  induction h with
  | init => decide
  | bookStep uid cid p r _ ih => exact book_payvalid ih uid cid p r
  | adminStep bid ns _ ih => exact admin_payvalid ih bid ns
  | editStep bid uid p r _ ih => exact edit_payvalid ih bid uid p r
  | reviewStep bid uid rating _ ih => exact review_payvalid ih bid uid rating
  | payStep bid uid m _ ih => exact confirmation_payment_payvalid ih bid uid m
  | processStep bid uid m _ ih => exact process_payment_payvalid ih bid uid m

theorem reachable_reviewsUnique {s : State} (h : Reachable s) : ReviewsUnique s := by
  induction h with
  | init => intro i; simp [initialState]
  | bookStep uid cid p r _ ih => exact update_reviewsUnique ih (book_reviews uid cid p r)
  | adminStep bid ns _ ih => exact update_reviewsUnique ih (admin_reviews bid ns)
  | editStep bid uid p r _ ih => exact update_reviewsUnique ih (edit_reviews bid uid p r)
  | reviewStep bid uid rating _ ih => exact review_reviewsUnique ih bid uid rating
  | payStep bid uid m _ ih =>
      exact update_reviewsUnique ih (confirmation_payment_reviews bid uid m)
  | processStep bid uid m _ ih =>
      exact update_reviewsUnique ih (process_payment_reviews bid uid m)


theorem strip_price_chars_idem (s : String) :
    (strip_price_chars (strip_price_chars s)).data = (strip_price_chars s).data := by
  refine List.filter_eq_self.mpr (fun a ha => ?_)
  have hm := List.mem_filter.mp
    (show a ∈ List.filter (fun c => c.isDigit || c == '.') s.data from ha)
  exact hm.2

theorem ratOfParts_nonneg (p : Nat × Nat × Nat) : 0 ≤ ratOfParts p := by
  unfold ratOfParts
  positivity

theorem parse_price_nonneg (s : String) : 0 ≤ parse_price s := by
  unfold parse_price
  split
  · exact le_refl 0
  · split
    · exact ratOfParts_nonneg _
    · exact le_refl 0

theorem roundHalfEven_nonneg {q : ℚ} (h : 0 ≤ q) : 0 ≤ roundHalfEven q := by
  unfold roundHalfEven
  have hf : (0:Int) ≤ ⌊q⌋ := Int.floor_nonneg.mpr h
  dsimp only
  split
  · exact hf
  · split
    · omega
    · split <;> omega

theorem round2_nonneg {q : ℚ} (h : 0 ≤ q) : 0 ≤ round2 q := by
  unfold round2
  have h1 : (0:Int) ≤ roundHalfEven (q * 100) := roundHalfEven_nonneg (by positivity)
  have h2 : (0:ℚ) ≤ (roundHalfEven (q * 100) : ℚ) := by exact_mod_cast h1
  positivity

theorem confirmation_days_pos (bs : List Booking) (b : Booking) :
    1 ≤ confirmation_days bs b := by
  unfold confirmation_days
  dsimp only
  split <;> omega

/-- C9: the inclusive day count equals `(end - start) + 1` clamped to a
minimum of 1, so `inclusiveDays d d = 1` and the result is never below
1, even when the end date precedes the start date. -/
theorem c9_inclusive_days :
    (∀ s e : Int, inclusiveDays s e = max 1 (e - s + 1)) ∧
    (∀ d : Int, inclusiveDays d d = 1) ∧
    (∀ s e : Int, 1 ≤ inclusiveDays s e) := by
  refine ⟨?_, ?_, ?_⟩
  · intro s e
    unfold inclusiveDays
    split <;> omega
  · intro d
    unfold inclusiveDays
    split <;> omega
  · intro s e
    unfold inclusiveDays
    split <;> omega

/-- C8: price parsing keeps only digits and decimal points (parsing is
invariant under the strip), "₱2,200.50abc" parses to 2200.50, and ""
and "N/A" parse to 0. -/
theorem c8_parse_price :
    (∀ s : String, parse_price s = parse_price (strip_price_chars s)) ∧
    parse_price "₱2,200.50abc" = 2200.5 ∧
    parse_price "" = 0 ∧
    parse_price "N/A" = 0 := by
  refine ⟨?_, ?_, ?_, ?_⟩
  · intro s
    by_cases hs : s = ""
    · subst hs
      rfl
    · by_cases ht : strip_price_chars s = ""
      · unfold parse_price
        rw [if_neg hs, if_pos ht]
        have hd : (strip_price_chars s).data = [] := by
          rw [ht]
        rw [hd]
        rfl
      · unfold parse_price
        rw [if_neg hs, if_neg ht, strip_price_chars_idem]
  · have h : floatOfStripped (strip_price_chars "₱2,200.50abc").data = some (2200, 50, 2) := by
      decide
    unfold parse_price
    rw [if_neg (by decide), h]
    norm_num [ratOfParts]
  · rfl
  · have h : floatOfStripped (strip_price_chars "N/A").data = none := by
      decide
    unfold parse_price
    rw [if_neg (by decide), h]

/-- C10: the price parser never yields a negative number (sign characters
are stripped), and the confirmation total computed from any parsed price
is never negative. -/
theorem c10_nonneg :
    (∀ s : String, 0 ≤ parse_price s) ∧
    (∀ (bs : List Booking) (b : Booking) (ps : String),
      0 ≤ confirmation_total bs b (parse_price ps)) := by
  refine ⟨parse_price_nonneg, ?_⟩
  intro bs b ps
  unfold confirmation_total
  apply round2_nonneg
  apply mul_nonneg (parse_price_nonneg ps)
  have h1 := confirmation_days_pos bs b
  have h2 : (0:Int) ≤ confirmation_days bs b := by omega
  exact_mod_cast h2


theorem mem_conflicting {bs : List Booking} {carId : Nat} {excl : Option Nat}
    {cs ce : Int} {b : Booking} :
    b ∈ conflicting_bookings bs carId excl cs ce ↔
      b ∈ bs ∧ b.car_id = carId ∧ (∀ i, excl = some i → b.id ≠ i) ∧
        isBlocking b.status = true ∧ cs ≤ b.return_date ∧ b.pickup_date ≤ ce := by
  unfold conflicting_bookings
  rw [List.mem_filter]
  cases excl with
  | none => simp [Bool.and_eq_true, beq_iff_eq, decide_eq_true_eq, and_assoc]
  | some j => simp [Bool.and_eq_true, beq_iff_eq, bne_iff_ne, decide_eq_true_eq, and_assoc]

/-- C2: the availability check returns true exactly when some booking of
the car, other than the excluded one, is in a blocking status and passes
the interval-overlap test `return_date >= candidateStart AND
pickup_date <= candidateEnd`; bookings in status Pending or Rejected
never affect the result. -/
theorem c2_hasConflict :
    (∀ (bs : List Booking) (carId : Nat) (cs ce : Int) (excl : Option Nat),
      hasConflict bs carId cs ce excl = true ↔
        ∃ b ∈ bs, b.car_id = carId ∧ (∀ i, excl = some i → b.id ≠ i) ∧
          isBlocking b.status = true ∧ cs ≤ b.return_date ∧ b.pickup_date ≤ ce) ∧
    (∀ (b : Booking) (bs : List Booking) (carId : Nat) (cs ce : Int) (excl : Option Nat),
      b.status = "Pending" ∨ b.status = "Rejected" →
      hasConflict (b :: bs) carId cs ce excl = hasConflict bs carId cs ce excl) := by
  constructor
  · intro bs carId cs ce excl
    unfold hasConflict
    rw [Bool.not_eq_true', List.isEmpty_eq_false_iff_exists_mem]
    constructor
    · rintro ⟨x, hx⟩
      rw [mem_conflicting] at hx
      exact ⟨x, hx.1, hx.2⟩
    · rintro ⟨b, h1, h2⟩
      exact ⟨b, mem_conflicting.mpr ⟨h1, h2⟩⟩
  · intro b bs carId cs ce excl hst
    unfold hasConflict conflicting_bookings
    rw [List.filter_cons]
    have hbl : isBlocking b.status = false := by
      rcases hst with h | h <;> rw [h] <;> rfl
    simp [hbl]


theorem overlap_fold_spec (b : Booking) (bs : List Booking) (acc : Finset Int) :
    (conflicting_bookings bs b.car_id (some b.id) b.pickup_date b.return_date).foldl
      (fun a o => a ∪ Finset.Icc (max b.pickup_date o.pickup_date)
        (min b.return_date o.return_date)) acc =
    (bs.filter (fun o => o.id != b.id && o.car_id == b.car_id && isBlocking o.status)).foldl
      (fun a o => a ∪
        (Finset.Icc b.pickup_date b.return_date ∩ Finset.Icc o.pickup_date o.return_date))
      acc := by
  induction bs generalizing acc with
  | nil => rfl
  | cons o os ih =>
    unfold conflicting_bookings
    rw [List.filter_cons, List.filter_cons]
    by_cases hP : (o.id != b.id && o.car_id == b.car_id && isBlocking o.status) = true
    · by_cases hD : b.pickup_date ≤ o.return_date ∧ o.pickup_date ≤ b.return_date
      · have hc : (o.car_id == b.car_id && excludeTest (some b.id) o && isBlocking o.status &&
            decide (b.pickup_date ≤ o.return_date) &&
            decide (o.pickup_date ≤ b.return_date)) = true := by
          simp only [excludeTest_some, Bool.and_eq_true, bne_iff_ne, ne_eq,
            beq_iff_eq, decide_eq_true_eq] at hP ⊢
          obtain ⟨⟨hid, hcar⟩, hbl⟩ := hP
          exact ⟨⟨⟨⟨hcar, hid⟩, hbl⟩, hD.1⟩, hD.2⟩
        rw [if_pos hc, if_pos hP, List.foldl_cons, List.foldl_cons, Icc_inter_eq]
        exact ih _
      · have hcf : (o.car_id == b.car_id && excludeTest (some b.id) o && isBlocking o.status &&
            decide (b.pickup_date ≤ o.return_date) &&
            decide (o.pickup_date ≤ b.return_date)) = false := by
          rw [Bool.eq_false_iff]
          intro hc
          apply hD
          simp only [excludeTest_some, Bool.and_eq_true, bne_iff_ne, ne_eq,
            beq_iff_eq, decide_eq_true_eq] at hc
          exact ⟨hc.1.2, hc.2⟩
        rw [if_neg (by rw [hcf]; exact Bool.false_ne_true), if_pos hP, List.foldl_cons]
        have hempty : Finset.Icc b.pickup_date b.return_date ∩
            Finset.Icc o.pickup_date o.return_date = (∅ : Finset Int) :=
          rangesDisjoint_of_test_false hD
        rw [hempty, Finset.union_empty]
        exact ih acc
    · have hPf : (o.id != b.id && o.car_id == b.car_id && isBlocking o.status) = false := by
        rwa [Bool.not_eq_true] at hP
      have hcf : (o.car_id == b.car_id && excludeTest (some b.id) o && isBlocking o.status &&
          decide (b.pickup_date ≤ o.return_date) &&
          decide (o.pickup_date ≤ b.return_date)) = false := by
        rw [Bool.eq_false_iff]
        intro hc
        apply hP
        simp only [excludeTest_some, Bool.and_eq_true, bne_iff_ne, ne_eq,
          beq_iff_eq, decide_eq_true_eq] at hc ⊢
        obtain ⟨⟨⟨⟨hcar, hid⟩, hbl⟩, _⟩, _⟩ := hc
        exact ⟨⟨hid, hcar⟩, hbl⟩
      rw [if_neg (by rw [hcf]; exact Bool.false_ne_true),
        if_neg (by rw [hPf]; exact Bool.false_ne_true)]
      exact ih acc

theorem overlap_day_union_spec (b : Booking) (bs : List Booking) :
    overlap_day_union b (conflicting_bookings bs b.car_id (some b.id)
      b.pickup_date b.return_date) = specOverlapUnion bs b :=
  overlap_fold_spec b bs ∅

theorem confirmation_days_spec (bs : List Booking) (b : Booking) :
    confirmation_days bs b = specBillableDays bs b := by
  unfold confirmation_days specBillableDays
  dsimp only
  rw [overlap_day_union_spec]
  split <;> omega

/-- C3: the confirmation-page total equals `round(price * billable, 2)`
where billable days are the inclusive total minus the union of calendar
days shared with every other same-car blocking booking, floored at one
day; same-car non-blocking bookings, other cars' bookings and the booking
itself contribute nothing to the deduction. -/
theorem c3_pricing (bs : List Booking) (b : Booking) (p : ℚ) :
    confirmation_total bs b p = round2 (p * (specBillableDays bs b : ℚ)) := by
  unfold confirmation_total
  rw [confirmation_days_spec]


def c1_s1 : State := (book initialState 1 1 0 4).2

def c1_s2 : State := (admin_update_booking_status c1_s1 1 "Approved").2

def c1_s3 : State := (book c1_s2 1 1 10 12).2

def c1_s4 : State := (admin_update_booking_status c1_s3 2 "Approved").2

def c1_bad : State := (edit_booking c1_s4 2 1 3 8).2

/-- C1 counterexample: a reachable state violating the no-overlap
invariant.  Two bookings of car 1 are approved on disjoint ranges
([0,4] and [10,12]); the owner then edits the second, Approved, booking
to [3,8] — `edit_booking` performs no conflict check, so the two
Approved bookings now share days 3 and 4. -/
theorem c1_counterexample : Reachable c1_bad ∧ ¬ NoOverlap c1_bad := by
  constructor
  · exact Reachable.editStep 2 1 3 8 (Reachable.adminStep 2 "Approved"
      (Reachable.bookStep 1 1 10 12 (Reachable.adminStep 1 "Approved"
        (Reachable.bookStep 1 1 0 4 Reachable.init))))
  · decide

/-- C1 (amended): in every state reachable through the operations,
provided owner edits never target a booking that is Approved (the one
unchecked path), any two distinct same-car bookings in blocking statuses
have disjoint inclusive date ranges. -/
theorem c1_no_overlap (s : State) (h : ReachableSafe s) : NoOverlap s :=
  (reachableSafe_inv h).2.2

theorem c1_no_overlap_witness : ReachableSafe c1_s4 ∧ NoOverlap c1_s4 :=
  have h : ReachableSafe c1_s4 := ReachableSafe.adminStep 2 "Approved"
    (ReachableSafe.bookStep 1 1 10 12 (ReachableSafe.adminStep 1 "Approved"
      (ReachableSafe.bookStep 1 1 0 4 ReachableSafe.init)))
  ⟨h, c1_no_overlap c1_s4 h⟩

theorem allowed_imp_valid {cur ns : String} (h : adminAllowedTransition cur ns = true) :
    is_valid_status ns = true := by
  simp only [adminAllowedTransition, Bool.or_eq_true, Bool.and_eq_true, beq_iff_eq] at h
  rcases h with (⟨_, (h | h) | h⟩ | ⟨_, h | h⟩) | ⟨_, h | h⟩ <;> subst h <;> rfl

theorem trans_ok_iff_allowed {cur ns : String} (hcur : is_valid_status cur = true) :
    (trans_error cur ns = none ∧ is_valid_status ns = true) ↔
      adminAllowedTransition cur ns = true := by
  by_cases hns : is_valid_status ns = true
  · rcases is_valid_status_cases hcur with rfl | rfl | rfl | rfl | rfl <;>
      rcases is_valid_status_cases hns with rfl | rfl | rfl | rfl | rfl <;>
        decide
  · constructor
    · rintro ⟨_, hv⟩
      exact absurd hv hns
    · intro hall
      exact absurd (allowed_imp_valid hall) hns

theorem hasConflict_iff_ne_nil {bs : List Booking} {carId : Nat} {cs ce : Int}
    {excl : Option Nat} :
    hasConflict bs carId cs ce excl = true ↔
      conflicting_bookings bs carId excl cs ce ≠ [] := by
  unfold hasConflict
  rw [Bool.not_eq_true', List.isEmpty_eq_false]


def mkSoloBooking (st : String) : Booking :=
  { id := 1
    user_id := 1
    car_id := 1
    pickup_date := 0
    return_date := 2
    status := st
    payment_method := none
    payment_status := "Unpaid" }

def c4_returned_state : State := { bookings := [mkSoloBooking "Returned"], reviews := [] }

def c4_pending_state : State := { bookings := [mkSoloBooking "Pending"], reviews := [] }

def c4_approved_state : State := { bookings := [mkSoloBooking "Approved"], reviews := [] }

/-- C4 counterexample: the admin route accepts transitions outside the
claim's table: Returned to Completed succeeds (and changes the booking),
and the self-transitions Pending to Pending, Approved to Approved and
Returned to Returned are accepted rather than rejected. -/
theorem c4_counterexample :
    (admin_update_booking_status c4_returned_state 1 "Completed").1 = AdminResult.ok ∧
    (admin_update_booking_status c4_returned_state 1 "Completed").2 ≠ c4_returned_state ∧
    (admin_update_booking_status c4_pending_state 1 "Pending").1 = AdminResult.ok ∧
    (admin_update_booking_status c4_approved_state 1 "Approved").1 = AdminResult.ok ∧
    (admin_update_booking_status c4_returned_state 1 "Returned").1 = AdminResult.ok := by
  refine ⟨by decide, by decide, by decide, by decide, by decide⟩

/-- C4 (amended): for a stored booking with a valid status, the admin
status update succeeds exactly on the code's transition table — from
Pending to Pending, Approved or Rejected; from Approved to Approved or
Returned; from Returned to Returned or Completed; nothing out of
Rejected or Completed — further guarded by the payment-method rule for
Pending and the overlap rule for approvals; rejections leave the store
unchanged, successes write exactly the new status, and a rejected
approval reports the conflicting bookings' ids and date ranges. -/
theorem c4_admin_transitions (s : State) (bid : Nat) (ns : String) (b : Booking)
    (hfind : findBooking s bid = some b) (hvalid : is_valid_status b.status = true) :
    ((admin_update_booking_status s bid ns).1 = AdminResult.ok ↔
      (adminAllowedTransition b.status ns = true ∧
        ¬(ns = "Pending" ∧ hasPaymentMethod b = true) ∧
        ¬(b.status = "Pending" ∧ ns = "Approved" ∧
          hasConflict s.bookings b.car_id b.pickup_date b.return_date (some b.id) = true))) ∧
    ((admin_update_booking_status s bid ns).1 ≠ AdminResult.ok →
      (admin_update_booking_status s bid ns).2 = s) ∧
    ((admin_update_booking_status s bid ns).1 = AdminResult.ok →
      (admin_update_booking_status s bid ns).2 =
        updateBooking s bid (fun x => { x with status := ns })) ∧
    (b.status = "Pending" → ns = "Approved" →
      conflicting_bookings s.bookings b.car_id (some b.id) b.pickup_date b.return_date ≠ [] →
      (admin_update_booking_status s bid ns).1 = AdminResult.conflict
        ((conflicting_bookings s.bookings b.car_id (some b.id)
          b.pickup_date b.return_date).map (fun cb => (cb.id, cb.pickup_date, cb.return_date)))) := by
  have hg1iff : (ns == "Approved" && b.status == "Pending" &&
      !(conflicting_bookings s.bookings b.car_id (some b.id)
        b.pickup_date b.return_date).isEmpty) = true ↔
      (b.status = "Pending" ∧ ns = "Approved" ∧
        conflicting_bookings s.bookings b.car_id (some b.id)
          b.pickup_date b.return_date ≠ []) := by
    simp only [Bool.and_eq_true, beq_iff_eq, Bool.not_eq_true', List.isEmpty_eq_false, ne_eq]
    constructor
    · rintro ⟨⟨h1, h2⟩, h3⟩
      exact ⟨h2, h1, h3⟩
    · rintro ⟨h1, h2, h3⟩
      exact ⟨⟨h2, h1⟩, h3⟩
  simp only [admin_update_booking_status, hfind]
  by_cases hg1 : (ns == "Approved" && b.status == "Pending" &&
      !(conflicting_bookings s.bookings b.car_id (some b.id)
        b.pickup_date b.return_date).isEmpty) = true
  · rw [if_pos hg1]
    obtain ⟨hpend, happr, hne⟩ := hg1iff.mp hg1
    refine ⟨?_, fun _ => rfl, ?_, fun _ _ _ => rfl⟩
    · constructor
      · intro hok
        exact absurd hok (by simp)
      · rintro ⟨_, _, hnc⟩
        exact absurd ⟨hpend, happr, hasConflict_iff_ne_nil.mpr hne⟩ hnc
    · intro hok
      exact absurd hok (by simp)
  · rw [if_neg hg1]
    have hnc : ¬(b.status = "Pending" ∧ ns = "Approved" ∧
        hasConflict s.bookings b.car_id b.pickup_date b.return_date (some b.id) = true) := by
      rintro ⟨h1, h2, h3⟩
      exact hg1 (hg1iff.mpr ⟨h1, h2, hasConflict_iff_ne_nil.mp h3⟩)
    have hconfl : b.status = "Pending" → ns = "Approved" →
        conflicting_bookings s.bookings b.car_id (some b.id)
          b.pickup_date b.return_date ≠ [] → False := by
      intro h1 h2 h3
      exact hg1 (hg1iff.mpr ⟨h1, h2, h3⟩)
    by_cases hg2 : (ns == "Pending" && hasPaymentMethod b) = true
    · rw [if_pos hg2]
      simp only [Bool.and_eq_true, beq_iff_eq] at hg2
      refine ⟨?_, fun _ => rfl, ?_, fun h1 h2 h3 => absurd (hconfl h1 h2 h3) not_false⟩
      · constructor
        · intro hok
          exact absurd hok (by simp)
        · rintro ⟨_, hnp, _⟩
          exact absurd hg2 hnp
      · intro hok
        exact absurd hok (by simp)
    · rw [if_neg hg2]
      have hnp : ¬(ns = "Pending" ∧ hasPaymentMethod b = true) := by
        rintro ⟨h1, h2⟩
        exact hg2 (by simp [h1, h2])
      rcases he : trans_error b.status ns with _ | msg
      · by_cases hv : is_valid_status ns = true
        · rw [if_pos hv]
          refine ⟨?_, ?_, fun _ => rfl, fun h1 h2 h3 => absurd (hconfl h1 h2 h3) not_false⟩
          · constructor
            · intro _
              exact ⟨(trans_ok_iff_allowed hvalid).mp ⟨he, hv⟩, hnp, hnc⟩
            · intro _
              rfl
          · intro hne'
            exact absurd rfl hne'
        · rw [if_neg hv]
          refine ⟨?_, fun _ => rfl, ?_, fun h1 h2 h3 => absurd (hconfl h1 h2 h3) not_false⟩
          · constructor
            · intro hok
              exact AdminResult.noConfusion hok
            · rintro ⟨hall, _, _⟩
              exact absurd (allowed_imp_valid hall) hv
          · intro hok
            exact AdminResult.noConfusion hok
      · refine ⟨?_, fun _ => rfl, ?_, fun h1 h2 h3 => absurd (hconfl h1 h2 h3) not_false⟩
        · constructor
          · intro hok
            exact AdminResult.noConfusion hok
          · rintro ⟨hall, _, _⟩
            have hok := (trans_ok_iff_allowed hvalid).mpr hall
            rw [he] at hok
            exact Option.noConfusion hok.1
        · intro hok
          exact AdminResult.noConfusion hok

def c4w_booking : Booking := mkSoloBooking "Pending"

def c4w_state : State := { bookings := [c4w_booking], reviews := [] }

theorem c4_admin_transitions_witness :
    findBooking c4w_state 1 = some c4w_booking ∧
    is_valid_status c4w_booking.status = true ∧
    (admin_update_booking_status c4w_state 1 "Approved").1 = AdminResult.ok :=
  ⟨by decide, by decide,
    (c4_admin_transitions c4w_state 1 "Approved" c4w_booking (by decide) (by decide)).1.mpr
      (by decide)⟩


/-- The id and status of a booking, for stating that an operation leaves
every booking's status untouched. -/
def idStatus (b : Booking) : Nat × String := (b.id, b.status)

def c5_state : State := { bookings := [mkSoloBooking "Returned"], reviews := [] }

/-- C5 counterexample: the admin status update moves a Returned booking
to Completed while creating no review row, so review submission is not
the only path from Returned to Completed. -/
theorem c5_counterexample :
    (admin_update_booking_status c5_state 1 "Completed").1 = AdminResult.ok ∧
    ((findBooking (admin_update_booking_status c5_state 1 "Completed").2 1).map
      (fun b => b.status)) = some "Completed" ∧
    (admin_update_booking_status c5_state 1 "Completed").2.reviews = [] := by
  refine ⟨by decide, by decide, by decide⟩

/-- C5 (amended): a booking moves from Returned to Completed through
customer review submission — which stores the review row and the new
status in one step — or through the admin status update, which creates
no review; the remaining operations (owner edit, the two payment routes)
never change any booking's status, and booking submission leaves
existing rows untouched. -/
theorem c5_returned_completed :
    (∀ (s : State) (bid uid rating : Nat) (b : Booking),
      findBooking s bid = some b → (review s bid uid rating).1 = ReviewResult.created →
        b.status = "Returned" ∧
        (review s bid uid rating).2.reviews = s.reviews ++
          [{ user_id := uid, car_id := b.car_id, booking_id := bid, rating := rating }] ∧
        findBooking (review s bid uid rating).2 bid = some { b with status := "Completed" }) ∧
    (∀ (s : State) (bid uid : Nat) (p r : Int),
      (edit_booking s bid uid p r).2.bookings.map idStatus = s.bookings.map idStatus) ∧
    (∀ (s : State) (bid uid : Nat) (m : Option String),
      (confirmation_payment s bid uid m).2.bookings.map idStatus = s.bookings.map idStatus) ∧
    (∀ (s : State) (bid uid : Nat) (m : Option String),
      (process_payment s bid uid m).2.bookings.map idStatus = s.bookings.map idStatus) ∧
    (∀ (s : State) (uid cid : Nat) (p r : Int), ∃ l,
      (book s uid cid p r).2.bookings = s.bookings ++ l) ∧
    (∀ (s : State) (bid : Nat) (ns : String),
      (admin_update_booking_status s bid ns).2.reviews = s.reviews) := by
  refine ⟨?_, ?_, ?_, ?_, ?_, ?_⟩
  · intro s bid uid rating b hfind hres
    simp only [review, hfind] at hres ⊢
    split at hres
    · exact absurd hres (by simp)
    · split at hres
      · exact absurd hres (by simp)
      · split at hres
        · exact absurd hres (by simp)
        · split at hres
          · rename_i howner hret hempty hrate
            rw [if_neg howner, if_neg hret, if_neg hempty, if_pos hrate]
            refine ⟨by simpa using hret, rfl, ?_⟩
            have hmap := @findBooking_updateBooking s bid
              (fun x => { x with status := "Completed" }) (fun x => rfl) bid
            have hbid : (b.id == bid) = true := by
              simp [(findBooking_mem hfind).2]
            show findBooking (updateBooking s bid
              (fun x => { x with status := "Completed" })) bid =
                some { b with status := "Completed" }
            rw [hmap, hfind, Option.map_some']
            rw [if_pos hbid]
          · exact absurd hres (by simp)
  · intro s bid uid p r
    rcases hfind : findBooking s bid with _ | booking
    · simp only [edit_booking, hfind]
    · simp only [edit_booking, hfind]
      (repeat' split) <;>
        first
          | rfl
          | exact updateBooking_map_eq (fun x => rfl)
  · intro s bid uid m
    rcases hfind : findBooking s bid with _ | booking
    · simp only [confirmation_payment, hfind]
    · simp only [confirmation_payment, hfind]
      (repeat' split) <;>
        first
          | rfl
          | exact updateBooking_map_eq (fun x => rfl)
  · intro s bid uid m
    rcases hfind : findBooking s bid with _ | booking
    · simp only [process_payment, hfind]
    · simp only [process_payment, hfind]
      (repeat' split) <;>
        first
          | rfl
          | exact updateBooking_map_eq (fun x => rfl)
  · intro s uid cid p r
    unfold book
    split
    · exact ⟨[], (List.append_nil _).symm⟩
    · exact ⟨_, rfl⟩
  · intro s bid ns
    exact admin_reviews bid ns

def c5w_booking : Booking := mkSoloBooking "Returned"

def c5w_state : State := { bookings := [c5w_booking], reviews := [] }

theorem c5_returned_completed_witness :
    findBooking c5w_state 1 = some c5w_booking ∧
    (review c5w_state 1 1 5).1 = ReviewResult.created ∧
    (review c5w_state 1 1 5).2.reviews = c5w_state.reviews ++
      [{ user_id := 1, car_id := 1, booking_id := 1, rating := 5 }] :=
  ⟨by decide, by decide,
    (c5_returned_completed.1 c5w_state 1 1 5 c5w_booking (by decide) (by decide)).2.1⟩


theorem findBooking_update_status {s : State} {bid : Nat} {b : Booking} (newst : String)
    (hfind : findBooking s bid = some b) :
    findBooking (updateBooking s bid (fun x => { x with status := newst })) bid =
      some { b with status := newst } := by
  have hmap := @findBooking_updateBooking s bid (fun x => { x with status := newst })
    (fun x => rfl) bid
  have hbid : (b.id == bid) = true := by
    simp [(findBooking_mem hfind).2]
  rw [hmap, hfind, Option.map_some', if_pos hbid]

theorem review_not_returned {s : State} {bid : Nat} {b : Booking}
    (hfind : findBooking s bid = some b) (hst : b.status ≠ "Returned")
    (uid rating : Nat) :
    (review s bid uid rating).1 ≠ ReviewResult.created ∧
      (review s bid uid rating).2 = s := by
  simp only [review, hfind]
  by_cases h1 : (b.user_id != uid) = true
  · rw [if_pos h1]
    exact ⟨fun h => ReviewResult.noConfusion h, rfl⟩
  · rw [if_neg h1]
    have h2 : (b.status != "Returned") = true := by
      simpa using hst
    rw [if_pos h2]
    exact ⟨fun h => ReviewResult.noConfusion h, rfl⟩

/-- C6: review submission succeeds exactly when the submitting user owns
the booking, the booking is Returned and no review for it exists yet; on
success exactly one review row is appended and the booking becomes
Completed in the same step; failures leave the store unchanged; after a
success any further submission for the same booking fails without
changing the store; and every reachable store has at most one review per
booking. -/
theorem c6_review (s : State) (bid uid rating : Nat) (b : Booking)
    (hfind : findBooking s bid = some b) (hr : 1 ≤ rating ∧ rating ≤ 5) :
    ((review s bid uid rating).1 = ReviewResult.created ↔
      (b.user_id = uid ∧ b.status = "Returned" ∧
        s.reviews.filter (fun r => r.booking_id == bid) = [])) ∧
    ((review s bid uid rating).1 = ReviewResult.created →
      (review s bid uid rating).2.reviews = s.reviews ++
        [{ user_id := uid, car_id := b.car_id, booking_id := bid, rating := rating }] ∧
      findBooking (review s bid uid rating).2 bid = some { b with status := "Completed" }) ∧
    ((review s bid uid rating).1 ≠ ReviewResult.created → (review s bid uid rating).2 = s) ∧
    ((review s bid uid rating).1 = ReviewResult.created → ∀ uid2 rating2,
      (review ((review s bid uid rating).2) bid uid2 rating2).1 ≠ ReviewResult.created ∧
      (review ((review s bid uid rating).2) bid uid2 rating2).2 =
        (review s bid uid rating).2) ∧
    (∀ t, Reachable t → ReviewsUnique t) := by
  simp only [review, hfind]
  by_cases howner : (b.user_id != uid) = true
  · rw [if_pos howner]
    refine ⟨?_, ?_, fun _ => rfl, ?_, fun t ht => reachable_reviewsUnique ht⟩
    · constructor
      · intro hok
        exact ReviewResult.noConfusion hok
      · rintro ⟨h1, _, _⟩
        exact absurd h1 (by simpa using howner)
    · intro hok
      exact ReviewResult.noConfusion hok
    · intro hok
      exact ReviewResult.noConfusion hok
  · rw [if_neg howner]
    by_cases hret : (b.status != "Returned") = true
    · rw [if_pos hret]
      refine ⟨?_, ?_, fun _ => rfl, ?_, fun t ht => reachable_reviewsUnique ht⟩
      · constructor
        · intro hok
          exact ReviewResult.noConfusion hok
        · rintro ⟨_, h2, _⟩
          exact absurd h2 (by simpa using hret)
      · intro hok
        exact ReviewResult.noConfusion hok
      · intro hok
        exact ReviewResult.noConfusion hok
    · rw [if_neg hret]
      by_cases hempty : ((!(s.reviews.filter (fun r => r.booking_id == bid)).isEmpty) = true)
      · rw [if_pos hempty]
        refine ⟨?_, ?_, fun _ => rfl, ?_, fun t ht => reachable_reviewsUnique ht⟩
        · constructor
          · intro hok
            exact ReviewResult.noConfusion hok
          · rintro ⟨_, _, h3⟩
            rw [Bool.not_eq_true'] at hempty
            rw [h3] at hempty
            simp at hempty
        · intro hok
          exact ReviewResult.noConfusion hok
        · intro hok
          exact ReviewResult.noConfusion hok
      · rw [if_neg hempty, if_pos hr]
        have hfound : findBooking (updateBooking s bid
            (fun x => { x with status := "Completed" })) bid =
              some { b with status := "Completed" } :=
          findBooking_update_status "Completed" hfind
        refine ⟨?_, ?_, ?_, ?_, fun t ht => reachable_reviewsUnique ht⟩
        · constructor
          · intro _
            refine ⟨by simpa using howner, by simpa using hret, ?_⟩
            simp only [Bool.not_eq_true', Bool.not_eq_false] at hempty
            rwa [List.isEmpty_iff] at hempty
          · intro _
            rfl
        · intro _
          exact ⟨rfl, hfound⟩
        · intro hne
          exact absurd rfl hne
        · intro _ uid2 rating2
          exact @review_not_returned
            { bookings := (updateBooking s bid
                (fun x => { x with status := "Completed" })).bookings,
              reviews := s.reviews ++
                [{ user_id := uid, car_id := b.car_id, booking_id := bid, rating := rating }] }
            bid { b with status := "Completed" } hfound
            (show ("Completed" : String) ≠ "Returned" by decide) uid2 rating2


def c6w_booking : Booking := mkSoloBooking "Returned"

def c6w_state : State := { bookings := [c6w_booking], reviews := [] }

theorem c6_review_witness :
    findBooking c6w_state 1 = some c6w_booking ∧
    (1 ≤ 5 ∧ 5 ≤ 5) ∧
    (review c6w_state 1 1 5).1 = ReviewResult.created :=
  ⟨by decide, by decide,
    (c6_review c6w_state 1 1 5 c6w_booking (by decide) (by decide)).1.mpr (by decide)⟩

def c7_s1 : State := (book initialState 1 1 0 4).2

def c7_s2 : State := (admin_update_booking_status c7_s1 1 "Approved").2

def c7_bad : State := (confirmation_payment c7_s2 1 1 (some "Bitcoin")).2

/-- C7 counterexample: the payment-method route stores whatever non-empty
string the owner submits for an Approved booking — here "Bitcoin" — so a
reachable booking's payment_method need not be unset, Cash, GCash or
Card. -/
theorem c7_counterexample :
    Reachable c7_bad ∧
    ¬(∀ b ∈ c7_bad.bookings, b.payment_method = none ∨ b.payment_method = some "Cash" ∨
      b.payment_method = some "GCash" ∨ b.payment_method = some "Card") := by
  constructor
  · exact Reachable.payStep 1 1 (some "Bitcoin") (Reachable.adminStep 1 "Approved"
      (Reachable.bookStep 1 1 0 4 Reachable.init))
  · decide

/-- C7 (amended): every reachable booking's payment_status is "Unpaid"
or "Paid"; payment-method selection changes the store only when the
booking is Approved and owned by the requester, and then records exactly
the submitted string (not restricted to Cash, GCash or Card) — "Cash"
sets payment_status to "Unpaid", any other string leaves it unchanged —
while the payment-processing route records the submitted method and
marks the booking "Paid". -/
theorem c7_payment :
    (∀ s, Reachable s → PayStatusValid s) ∧
    (∀ (s : State) (bid uid : Nat) (m : Option String) (b : Booking),
      findBooking s bid = some b →
      (¬(b.user_id = uid ∧ b.status = "Approved") →
        (confirmation_payment s bid uid m).2 = s) ∧
      (b.user_id = uid → b.status = "Approved" → ∀ mstr, m = some mstr → mstr ≠ "" →
        findBooking (confirmation_payment s bid uid m).2 bid =
          some { b with
                 payment_method := some mstr,
                 payment_status := if mstr == "Cash" then "Unpaid"
                   else b.payment_status }) ∧
      (b.user_id = uid → b.status = "Approved" →
        findBooking (process_payment s bid uid m).2 bid =
          some { b with payment_method := m, payment_status := "Paid" })) := by
  refine ⟨fun s h => reachable_payvalid h, ?_⟩
  intro s bid uid m b hfind
  refine ⟨?_, ?_, ?_⟩
  · intro hno
    simp only [confirmation_payment, hfind]
    by_cases h1 : (b.user_id != uid) = true
    · rw [if_pos h1]
    · rw [if_neg h1]
      by_cases h2 : (b.status != "Approved") = true
      · rw [if_pos h2]
      · exfalso
        exact hno ⟨by simpa using h1, by simpa using h2⟩
  · intro howner happr mstr hm hne
    subst hm
    have h1 : ¬(b.user_id != uid) = true := by
      simp [howner]
    have h2 : ¬(b.status != "Approved") = true := by
      simp [happr]
    have h3 : ¬(mstr == "") = true := by
      simpa using hne
    simp only [confirmation_payment, hfind]
    rw [if_neg h1, if_neg h2, if_neg h3]
    have hmap := @findBooking_updateBooking s bid
      (fun x => { x with
                  payment_method := some mstr,
                  payment_status := if mstr == "Cash" then "Unpaid"
                    else x.payment_status })
      (fun x => rfl) bid
    have hbid : (b.id == bid) = true := by
      simp [(findBooking_mem hfind).2]
    show findBooking (updateBooking s bid
        (fun x => { x with
                    payment_method := some mstr,
                    payment_status := if mstr == "Cash" then "Unpaid"
                      else x.payment_status })) bid =
      some { b with
             payment_method := some mstr,
             payment_status := if mstr == "Cash" then "Unpaid"
               else b.payment_status }
    rw [hmap, hfind, Option.map_some', if_pos hbid]
  · intro howner happr
    have h1 : ¬(b.user_id != uid) = true := by
      simp [howner]
    have h2 : ¬(b.status != "Approved") = true := by
      simp [happr]
    simp only [process_payment, hfind]
    rw [if_neg h1, if_neg h2]
    have hmap := @findBooking_updateBooking s bid
      (fun x => { x with payment_method := m, payment_status := "Paid" })
      (fun x => rfl) bid
    have hbid : (b.id == bid) = true := by
      simp [(findBooking_mem hfind).2]
    show findBooking (updateBooking s bid
        (fun x => { x with payment_method := m, payment_status := "Paid" })) bid =
      some { b with payment_method := m, payment_status := "Paid" }
    rw [hmap, hfind, Option.map_some', if_pos hbid]

def c7w_booking : Booking := mkSoloBooking "Approved"

def c7w_state : State := { bookings := [c7w_booking], reviews := [] }

theorem c7_payment_witness :
    findBooking c7w_state 1 = some c7w_booking ∧
    findBooking (confirmation_payment c7w_state 1 1 (some "GCash")).2 1 =
      some { c7w_booking with
             payment_method := some "GCash",
             payment_status := if ("GCash" == "Cash") then "Unpaid"
               else c7w_booking.payment_status } :=
  ⟨by decide,
    ((c7_payment.2 c7w_state 1 1 (some "GCash") c7w_booking (by decide)).2.1
      (by decide) (by decide) "GCash" rfl (by decide))⟩


theorem c2_hasConflict_witness :
    ((mkSoloBooking "Pending").status = "Pending" ∨
      (mkSoloBooking "Pending").status = "Rejected") ∧
    hasConflict [mkSoloBooking "Pending"] 1 0 2 none = hasConflict [] 1 0 2 none :=
  ⟨Or.inl (by decide),
    c2_hasConflict.2 (mkSoloBooking "Pending") [] 1 0 2 none (Or.inl (by decide))⟩


end CarRental
